import Mathlib

/-!
Shallow embedding of the `nom-span` crate (`src/lib.rs`), which provides
`Spanned<T>`: a wrapper around a parser input that tracks the current line,
column and byte offset as the input is incrementally narrowed.

The wrapped data is modelled as a list of bytes (`List Nat`, each entry a
byte value), which instantiates the generic Rust code at `T = &[u8]`.
Positions and counters are `Nat` (they are `usize` in Rust; every operation
here only adds or subtracts within bounds, so no wrap-around arises).
-/

/-- Mirror of the `Spanned<T>` struct: wrapped data plus line, column,
byte offset and the UTF-8 handling flag. -/
structure Spanned where
  data : List Nat
  line : Nat
  col : Nat
  offset : Nat
  handle_utf8 : Bool
deriving DecidableEq, Repr

/-- Mirror of `Spanned::new`: wraps data at line 1, column 1, offset 0. -/
def Spanned.new (data : List Nat) (handle_utf8 : Bool) : Spanned :=
  { data := data, line := 1, col := 1, offset := 0, handle_utf8 := handle_utf8 }

/-- Mirror of the `byte_offset` accessor. -/
def Spanned.byte_offset (s : Spanned) : Nat :=
  s.offset

/-- Mirror of `InputLength::input_len`, which delegates to the data length. -/
def Spanned.input_len (s : Spanned) : Nat :=
  s.data.length

/-- Mirror of `bytecount`'s char-boundary test: a byte starts a UTF-8 code
point exactly when it is not a continuation byte (`0x80..=0xBF`). -/
def is_char_boundary_byte (b : Nat) : Bool :=
  b < 128 || 192 ≤ b

/-- Mirror of `bytecount::num_chars`: the number of UTF-8 code points encoded
in a byte slice, counted as the number of non-continuation bytes. -/
def num_chars (bs : List Nat) : Nat :=
  (bs.filter is_char_boundary_byte).length

/-- Mirror of the `Memchr::new(b'\n', old_data)` iterator combined with the
`for` loop in `Slice::slice`: walks the bytes in order, counting newline
bytes (value 10) into `lines_to_add` and recording the index of the last
newline seen into `last_index`. -/
def newlineScan : List Nat → Nat → Nat → Option Nat → Nat × Option Nat
  | [], _, lines_to_add, last_index => (lines_to_add, last_index)
  | b :: rest, i, lines_to_add, last_index =>
    if b = 10 then newlineScan rest (i + 1) (lines_to_add + 1) (some i)
    else newlineScan rest (i + 1) lines_to_add last_index

/-- Mirror of the body of `Slice::slice for Spanned<T>`: `next_data` is the
requested sub-view and `off` is the byte distance from the start of
`s.data` to the start of `next_data` (`self.data.offset(&next_data)` in the
source). When `off = 0` the position fields are copied unchanged; otherwise
the `off` dropped bytes are scanned for newlines and the line/column/offset
are updated from the scan result. -/
def Spanned.sliceCore (s : Spanned) (next_data : List Nat) (off : Nat) : Spanned :=
  if off = 0 then
    { data := next_data, line := s.line, col := s.col, offset := s.offset,
      handle_utf8 := s.handle_utf8 }
  else
    let old_data := s.data.take off
    let scan := newlineScan old_data 0 0 none
    let lines_to_add := scan.1
    let last_index := match scan.2 with
      | none => 0
      | some v => v + 1
    let col := if s.handle_utf8 then num_chars (old_data.drop last_index)
      else old_data.length - last_index
    { data := next_data,
      line := s.line + lines_to_add,
      col := if lines_to_add = 0 then s.col + col else col + 1,
      offset := s.offset + off,
      handle_utf8 := s.handle_utf8 }

/-- Mirror of `self.slice(n..)`: drop the first `n` bytes; the offset of the
sub-view within the old data is `n`. -/
def Spanned.sliceFrom (s : Spanned) (n : Nat) : Spanned :=
  s.sliceCore (s.data.drop n) n

/-- Mirror of `self.slice(..n)`: keep the first `n` bytes; the sub-view
starts where the old data starts, so the offset is `0`. -/
def Spanned.sliceTo (s : Spanned) (n : Nat) : Spanned :=
  s.sliceCore (s.data.take n) 0

/-- Mirror of `InputTake::take`: `self.slice(..count)`. -/
def Spanned.take (s : Spanned) (count : Nat) : Spanned :=
  s.sliceTo count

/-- Mirror of `InputTake::take_split`: `(self.slice(count..), self.slice(..count))`. -/
def Spanned.take_split (s : Spanned) (count : Nat) : Spanned × Spanned :=
  (s.sliceFrom count, s.sliceTo count)

/-- Mirror of `InputIter::position` at the byte instantiation: the relative
index of the first element satisfying the predicate, if any. -/
def position (p : Nat → Bool) : List Nat → Option Nat
  | [] => none
  | b :: rest => if p b then some 0 else (position p rest).map (· + 1)

/-- Mirror of the nom error cases produced by the splitting methods:
`Err::Incomplete(Needed::new(n))` and `Err::Error(E::from_error_kind(span, kind))`,
the latter carrying the span at the failure point. -/
inductive SplitErr where
  | Incomplete : Nat → SplitErr
  | Error : Spanned → SplitErr
deriving DecidableEq, Repr

/-- Mirror of `InputTakeAtPosition::split_at_position`. -/
def Spanned.split_at_position (s : Spanned) (p : Nat → Bool) :
    Except SplitErr (Spanned × Spanned) :=
  match position p s.data with
  | some n => .ok (s.take_split n)
  | none => .error (.Incomplete 1)

/-- Mirror of `InputTakeAtPosition::split_at_position1`; its body is
identical to `split_at_position` (the error-kind argument is unused). -/
def Spanned.split_at_position1 (s : Spanned) (p : Nat → Bool) :
    Except SplitErr (Spanned × Spanned) :=
  match position p s.data with
  | some n => .ok (s.take_split n)
  | none => .error (.Incomplete 1)

/-- Mirror of `InputTakeAtPosition::split_at_position_complete`. -/
def Spanned.split_at_position_complete (s : Spanned) (p : Nat → Bool) :
    Except SplitErr (Spanned × Spanned) :=
  match s.split_at_position p with
  | .error (.Incomplete _) => .ok (s.take_split s.input_len)
  | res => res

/-- Mirror of `InputTakeAtPosition::split_at_position1_complete`. -/
def Spanned.split_at_position1_complete (s : Spanned) (p : Nat → Bool) :
    Except SplitErr (Spanned × Spanned) :=
  match position p s.data with
  | some 0 => .error (.Error s)
  | some n => .ok (s.take_split n)
  | none =>
    if s.data.length = 0 then .error (.Error s)
    else .ok (s.take_split s.input_len)

/-- Mirror of nom's `CompareResult`. -/
inductive CompareResult where
  | OK : CompareResult
  | Incomplete : CompareResult
  | Error : CompareResult
deriving DecidableEq, Repr

/-- ASCII lowercasing of a byte, as used by nom's `compare_no_case`. -/
def lowercaseByte (b : Nat) : Nat :=
  if 65 ≤ b ∧ b ≤ 90 then b + 32 else b

/-- Mirror of nom's `Compare` for byte slices, parameterised by the byte
normalisation (`id` for `compare`, ASCII lowercasing for `compare_no_case`):
walk both sequences in lockstep; a mismatch yields `Error`; exhausting the
pattern first yields `OK`; exhausting the data first yields `Incomplete`. -/
def bytesCompareBy (f : Nat → Nat) : List Nat → List Nat → CompareResult
  | _, [] => .OK
  | [], _ :: _ => .Incomplete
  | a :: arest, b :: brest =>
    if f a = f b then bytesCompareBy f arest brest else .Error

/-- Mirror of `Compare::compare for Spanned<T>`: forwards to the data. -/
def Spanned.compare (s : Spanned) (t : List Nat) : CompareResult :=
  bytesCompareBy id s.data t

/-- Mirror of `Compare::compare_no_case for Spanned<T>`: forwards to the data. -/
def Spanned.compare_no_case (s : Spanned) (t : List Nat) : CompareResult :=
  bytesCompareBy lowercaseByte s.data t

/-- Count of bytes or of code points, depending on the UTF-8 mode: the
`count` function of the specification. -/
def countMode (utf8 : Bool) (bs : List Nat) : Nat :=
  if utf8 then num_chars bs else bs.length

/-- Sequential narrowing: apply `sliceFrom` for each amount in the list,
left to right. -/
def Spanned.narrowSeq (s : Spanned) (ns : List Nat) : Spanned :=
  ns.foldl Spanned.sliceFrom s

/-- Bytes scanned for newlines by one narrowing dropping `n` leading bytes:
the slice algorithm returns before scanning when the consumed length is 0,
and otherwise scans exactly the consumed region `s.data.take n`. -/
def sliceScanCost (s : Spanned) (n : Nat) : Nat :=
  if n = 0 then 0 else (s.data.take n).length

/-- Total bytes scanned for newlines across a sequence of narrowings. -/
def totalScanCost : Spanned → List Nat → Nat
  | _, [] => 0
  | s, n :: ns => sliceScanCost s n + totalScanCost (s.sliceFrom n) ns

/-- Number of newline bytes (value 10) in a byte list. -/
def countNL (bs : List Nat) : Nat :=
  (bs.filter (fun b => b == 10)).length

lemma countNL_nil : countNL [] = 0 := rfl

lemma countNL_cons (b : Nat) (bs : List Nat) :
    countNL (b :: bs) = (if b = 10 then 1 else 0) + countNL bs := by
  by_cases h : b = 10
  · simp [countNL, List.filter_cons, h]
    omega
  · simp [countNL, List.filter_cons, h]

lemma countNL_eq_zero (bs : List Nat) (h : 10 ∉ bs) : countNL bs = 0 := by
  induction bs with
  | nil => rfl
  | cons b rest ih =>
    rw [countNL_cons]
    have hb : b ≠ 10 := fun hb => h (hb ▸ List.mem_cons_self b rest)
    have hr : 10 ∉ rest := fun hr => h (List.mem_cons_of_mem b hr)
    simp [hb, ih hr]

lemma newlineScan_no_nl (bs : List Nat) :
    ∀ i c l, 10 ∉ bs → newlineScan bs i c l = (c, l) := by
  induction bs with
  | nil => intro i c l _; rfl
  | cons b rest ih =>
    intro i c l h
    have hb : b ≠ 10 := fun hb => h (hb ▸ List.mem_cons_self b rest)
    have hr : 10 ∉ rest := fun hr => h (List.mem_cons_of_mem b hr)
    simp only [newlineScan, if_neg hb]
    exact ih (i + 1) c l hr

lemma newlineScan_append (xs : List Nat) :
    ∀ ys i c l, newlineScan (xs ++ ys) i c l =
      newlineScan ys (i + xs.length) (newlineScan xs i c l).1 (newlineScan xs i c l).2 := by
  induction xs with
  | nil => intro ys i c l; simp [newlineScan]
  | cons x rest ih =>
    intro ys i c l
    have hlen : i + (x :: rest).length = (i + 1) + rest.length := by
      simp [List.length_cons]; omega
    by_cases hx : x = 10
    · simp only [List.cons_append, newlineScan, if_pos hx, hlen]
      exact ih ys (i + 1) (c + 1) (some i)
    · simp only [List.cons_append, newlineScan, if_neg hx, hlen]
      exact ih ys (i + 1) c l

lemma newlineScan_count (bs : List Nat) :
    ∀ i c l, (newlineScan bs i c l).1 = c + countNL bs := by
  induction bs with
  | nil => intro i c l; simp [newlineScan, countNL_nil]
  | cons b rest ih =>
    intro i c l
    rw [countNL_cons]
    by_cases hb : b = 10
    · simp only [newlineScan, if_pos hb, ih]
      omega
    · simp only [newlineScan, if_neg hb, ih]
      simp [hb]

lemma newlineScan_split (p t : List Nat) (ht : 10 ∉ t) :
    newlineScan (p ++ 10 :: t) 0 0 none = (countNL p + 1, some p.length) := by
  rw [newlineScan_append]
  have h1 : (newlineScan p 0 0 none).1 = countNL p := by
    simpa using newlineScan_count p 0 0 none
  have h2 : newlineScan (10 :: t) (0 + p.length) (newlineScan p 0 0 none).1
        (newlineScan p 0 0 none).2
      = newlineScan t (0 + p.length + 1) ((newlineScan p 0 0 none).1 + 1)
        (some (0 + p.length)) := by
    simp [newlineScan]
  rw [h2, newlineScan_no_nl t _ _ _ ht, h1]
  simp

lemma sliceCore_zero (s : Spanned) (nd : List Nat) :
    s.sliceCore nd 0 =
      { data := nd, line := s.line, col := s.col, offset := s.offset,
        handle_utf8 := s.handle_utf8 } := by
  unfold Spanned.sliceCore
  rw [if_pos rfl]

lemma sliceCore_pos (s : Spanned) (nd : List Nat) (off : Nat) (h : off ≠ 0) :
    s.sliceCore nd off =
      (let old_data := s.data.take off
       let scan := newlineScan old_data 0 0 none
       let last_index := match scan.2 with
         | none => 0
         | some v => v + 1
       let c := if s.handle_utf8 then num_chars (old_data.drop last_index)
         else old_data.length - last_index
       { data := nd,
         line := s.line + scan.1,
         col := if scan.1 = 0 then s.col + c else c + 1,
         offset := s.offset + off,
         handle_utf8 := s.handle_utf8 }) := by
  unfold Spanned.sliceCore
  rw [if_neg h]

lemma sliceFrom_data (s : Spanned) (n : Nat) :
    (s.sliceFrom n).data = s.data.drop n := by
  by_cases hn : n = 0
  · subst hn; rw [Spanned.sliceFrom, sliceCore_zero]
  · rw [Spanned.sliceFrom, sliceCore_pos s _ n hn]

lemma sliceFrom_offset (s : Spanned) (n : Nat) :
    (s.sliceFrom n).offset = s.offset + n := by
  by_cases hn : n = 0
  · subst hn; rw [Spanned.sliceFrom, sliceCore_zero]
    show s.offset = s.offset + 0
    omega
  · rw [Spanned.sliceFrom, sliceCore_pos s _ n hn]

lemma sliceFrom_handle (s : Spanned) (n : Nat) :
    (s.sliceFrom n).handle_utf8 = s.handle_utf8 := by
  by_cases hn : n = 0
  · subst hn; rw [Spanned.sliceFrom, sliceCore_zero]
  · rw [Spanned.sliceFrom, sliceCore_pos s _ n hn]

lemma sliceFrom_line (s : Spanned) (n : Nat) :
    (s.sliceFrom n).line = s.line + countNL (s.data.take n) := by
  by_cases hn : n = 0
  · subst hn; rw [Spanned.sliceFrom, sliceCore_zero]
    simp [countNL_nil]
  · rw [Spanned.sliceFrom, sliceCore_pos s _ n hn]
    show s.line + (newlineScan (s.data.take n) 0 0 none).1 = _
    rw [newlineScan_count]
    simp

lemma sliceFrom_col_no_nl (s : Spanned) (n : Nat) (hn : n ≠ 0)
    (h : 10 ∉ s.data.take n) :
    (s.sliceFrom n).col = s.col + countMode s.handle_utf8 (s.data.take n) := by
  have hscan : newlineScan (s.data.take n) 0 0 none = (0, none) :=
    newlineScan_no_nl _ 0 0 none h
  rw [Spanned.sliceFrom, sliceCore_pos s _ n hn]
  show (if (newlineScan (s.data.take n) 0 0 none).1 = 0 then _ else _) = _
  rw [hscan]
  simp [countMode]

lemma sliceFrom_col_nl (s : Spanned) (n : Nat) (p t : List Nat) (hn : n ≠ 0)
    (hsplit : s.data.take n = p ++ 10 :: t) (ht : 10 ∉ t) :
    (s.sliceFrom n).col = countMode s.handle_utf8 t + 1 := by
  have hscan : newlineScan (s.data.take n) 0 0 none = (countNL p + 1, some p.length) := by
    rw [hsplit]; exact newlineScan_split p t ht
  have hdrop : (p ++ 10 :: t).drop (p.length + 1) = t := by
    have hassoc : p ++ 10 :: t = (p ++ [10]) ++ t := by
      rw [List.append_assoc]; rfl
    have hlen : (p ++ [10]).length = p.length + 1 := by simp
    rw [hassoc, ← hlen, List.drop_left]
  have hlen2 : (p ++ 10 :: t).length - (p.length + 1) = t.length := by
    simp [List.length_append]
    omega
  rw [Spanned.sliceFrom, sliceCore_pos s _ n hn]
  show (if (newlineScan (s.data.take n) 0 0 none).1 = 0 then _ else _) = _
  rw [hscan, hsplit]
  show (if countNL p + 1 = 0 then _ else
    (if s.handle_utf8 then num_chars ((p ++ 10 :: t).drop (p.length + 1))
      else (p ++ 10 :: t).length - (p.length + 1)) + 1) = _
  rw [if_neg (Nat.succ_ne_zero _), hdrop, hlen2]
  by_cases hu : s.handle_utf8 <;> simp [hu, countMode]

lemma position_none_iff (p : Nat → Bool) (bs : List Nat) :
    position p bs = none ↔ ∀ b ∈ bs, p b = false := by
  induction bs with
  | nil => simp [position]
  | cons b rest ih =>
    by_cases hb : p b
    · simp [position, hb]
    · simp [position, hb, Option.map_eq_none', ih, Bool.not_eq_true] at *

lemma position_first (p : Nat → Bool) (bs : List Nat) :
    ∀ n b, bs.get? n = some b → p b = true →
      (∀ i, i < n → ∀ c, bs.get? i = some c → p c = false) →
      position p bs = some n := by
  induction bs with
  | nil => intro n b h _ _; simp [List.get?] at h
  | cons x rest ih =>
    intro n b hget hp hfirst
    cases n with
    | zero =>
      have hx : x = b := by simpa using hget
      subst hx
      simp [position, hp]
    | succ k =>
      have hx : p x = false := hfirst 0 (Nat.succ_pos k) x rfl
      have hrest : position p rest = some k :=
        ih k b (by simpa using hget) hp
          (fun i hi c hc => hfirst (i + 1) (Nat.succ_lt_succ hi) c (by simpa using hc))
      simp [position, hx, hrest]

lemma position_zero_iff (p : Nat → Bool) (bs : List Nat) :
    position p bs = some 0 ↔ ∃ b, bs.get? 0 = some b ∧ p b = true := by
  cases bs with
  | nil => simp [position]
  | cons x rest =>
    by_cases hx : p x
    · simp [position, hx]
    · simp [position, hx, Option.map_eq_some']

lemma sliceFrom_col_ge_one (s : Spanned) (n : Nat) (hcol : 1 ≤ s.col) :
    1 ≤ (s.sliceFrom n).col := by
  by_cases hn : n = 0
  · subst hn; rw [Spanned.sliceFrom, sliceCore_zero]; exact hcol
  · rw [Spanned.sliceFrom, sliceCore_pos s _ n hn]
    show 1 ≤ (if (newlineScan (s.data.take n) 0 0 none).1 = 0 then s.col + _ else _ + 1)
    by_cases hz : (newlineScan (s.data.take n) 0 0 none).1 = 0
    · rw [if_pos hz]; omega
    · rw [if_neg hz]; omega

lemma narrowSeq_line_mono (ns : List Nat) :
    ∀ s : Spanned, s.line ≤ (s.narrowSeq ns).line := by
  induction ns with
  | nil => intro s; exact Nat.le_refl _
  | cons n rest ih =>
    intro s
    have h1 : s.line ≤ (s.sliceFrom n).line := by
      rw [sliceFrom_line]; omega
    have h2 : (s.sliceFrom n).line ≤ ((s.sliceFrom n).narrowSeq rest).line := ih _
    have heq : s.narrowSeq (n :: rest) = (s.sliceFrom n).narrowSeq rest := rfl
    rw [heq]
    exact Nat.le_trans h1 h2

lemma totalScanCost_le (ns : List Nat) :
    ∀ s : Spanned, totalScanCost s ns ≤ s.data.length := by
  induction ns with
  | nil => intro s; exact Nat.zero_le _
  | cons n rest ih =>
    intro s
    have hrest : totalScanCost (s.sliceFrom n) rest ≤ (s.sliceFrom n).data.length := ih _
    have hdata : (s.sliceFrom n).data.length = s.data.length - n := by
      rw [sliceFrom_data, List.length_drop]
    have hcost : sliceScanCost s n = if n = 0 then 0 else min n s.data.length := by
      by_cases hn : n = 0 <;> simp [sliceScanCost, hn, List.length_take]
    show sliceScanCost s n + totalScanCost (s.sliceFrom n) rest ≤ s.data.length
    rw [hcost]
    by_cases hn : n = 0
    · rw [if_pos hn]
      subst hn
      omega
    · rw [if_neg hn]
      omega

/-- C1: after a narrowing that drops a non-empty consumed prefix, the new
column is the old column plus the count of the consumed bytes (in bytes or
code points per the UTF-8 mode) when no newline was consumed, and the count
of the bytes after the last consumed newline plus 1 when at least one
newline was consumed; in particular consuming a single 4-byte emoji code
point yields column 2 in UTF-8 mode and column 5 in byte mode. -/
theorem c1_col_update :
    (∀ (s : Spanned) (n : Nat), 0 < n → n ≤ s.data.length →
      ((10 ∉ s.data.take n →
        (s.sliceFrom n).col = s.col + countMode s.handle_utf8 (s.data.take n)) ∧
       (∀ p t : List Nat, s.data.take n = p ++ 10 :: t → 10 ∉ t →
        (s.sliceFrom n).col = countMode s.handle_utf8 t + 1)))
    ∧ ((Spanned.new [240, 159, 153, 140] true).sliceFrom 4).col = 2
    ∧ ((Spanned.new [240, 159, 153, 140] false).sliceFrom 4).col = 5 := by
  refine ⟨fun s n hn _ => ⟨fun h => sliceFrom_col_no_nl s n (by omega) h,
    fun p t hsplit ht => sliceFrom_col_nl s n p t (by omega) hsplit ht⟩, ?_, ?_⟩
  · decide
  · decide

/-- Witness for C1 at a concrete input: consuming `"a\n"` from `"a\nb"`
lands at column 1 of the new line. -/
theorem c1_col_update_witness :
    ((Spanned.new [97, 10, 98] true).sliceFrom 2).col = 1 := by
  have h := (c1_col_update.1 (Spanned.new [97, 10, 98] true) 2 (by decide) (by decide)).2
    [97] [] (by decide) (by decide)
  rw [h]
  decide

/-- C2: after dropping a consumed prefix, the new line number is the old one
plus the number of newline bytes in the consumed region, and the line number
is non-decreasing across any sequence of forward narrowings. -/
theorem c2_line_update :
    (∀ (s : Spanned) (n : Nat), 0 < n → n ≤ s.data.length →
      (s.sliceFrom n).line = s.line + countNL (s.data.take n))
    ∧ (∀ (s : Spanned) (ns : List Nat), s.line ≤ (s.narrowSeq ns).line) :=
  ⟨fun s n _ _ => sliceFrom_line s n, fun s ns => narrowSeq_line_mono ns s⟩

/-- Witness for C2 at a concrete input: consuming all of `"a\nb"`. -/
theorem c2_line_update_witness :
    ((Spanned.new [97, 10, 98] true).sliceFrom 3).line =
      (Spanned.new [97, 10, 98] true).line +
        countNL ((Spanned.new [97, 10, 98] true).data.take 3) :=
  c2_line_update.1 (Spanned.new [97, 10, 98] true) 3 (by decide) (by decide)

/-- C3: dropping a consumed prefix of length `n` adds `n` to the byte
offset, and two sequential narrowings add the two consumed lengths. -/
theorem c3_offset_additivity :
    (∀ (s : Spanned) (n : Nat), n ≤ s.data.length →
      (s.sliceFrom n).byte_offset = s.byte_offset + n)
    ∧ (∀ (s : Spanned) (a b : Nat), a ≤ s.data.length →
      b ≤ (s.sliceFrom a).data.length →
      ((s.sliceFrom a).sliceFrom b).byte_offset = s.byte_offset + a + b) := by
  constructor
  · intro s n _
    exact sliceFrom_offset s n
  · intro s a b _ _
    show ((s.sliceFrom a).sliceFrom b).offset = s.offset + a + b
    rw [sliceFrom_offset, sliceFrom_offset]

/-- Witness for C3 at a concrete input: two single-byte narrowings. -/
theorem c3_offset_additivity_witness :
    (((Spanned.new [97, 98, 99] true).sliceFrom 1).sliceFrom 1).byte_offset =
      (Spanned.new [97, 98, 99] true).byte_offset + 1 + 1 :=
  c3_offset_additivity.2 (Spanned.new [97, 98, 99] true) 1 1 (by decide) (by decide)

/-- C4: a narrowing with consumed length 0 (in particular `take n`) copies
line, column, byte offset and the UTF-8 flag unchanged; only the data field
differs. -/
theorem c4_zero_consumed_identity :
    ∀ (s : Spanned) (nd : List Nat) (n : Nat),
      (s.sliceCore nd 0).line = s.line ∧ (s.sliceCore nd 0).col = s.col ∧
      (s.sliceCore nd 0).byte_offset = s.byte_offset ∧
      (s.sliceCore nd 0).handle_utf8 = s.handle_utf8 ∧
      (s.sliceCore nd 0).data = nd ∧
      (s.take n).line = s.line ∧ (s.take n).col = s.col ∧
      (s.take n).byte_offset = s.byte_offset ∧
      (s.take n).handle_utf8 = s.handle_utf8 ∧
      (s.take n).data = s.data.take n := by
  intro s nd n
  rw [Spanned.take, Spanned.sliceTo, sliceCore_zero, sliceCore_zero]
  exact ⟨rfl, rfl, rfl, rfl, rfl, rfl, rfl, rfl, rfl, rfl⟩

/-- C5: `split_at_position1_complete` errors (carrying the span at the
failure point) exactly when the first satisfying element is at relative
index 0 or when no element satisfies the predicate and the data is empty;
otherwise it returns `take_split n` for the first satisfying index `n`, or
`take_split` of the whole remaining length when no element satisfies. -/
theorem c5_split1_complete_cases :
    ∀ (s : Spanned) (p : Nat → Bool),
      ((∃ e, s.split_at_position1_complete p = .error e) ↔
        ((∃ b, s.data.get? 0 = some b ∧ p b = true) ∨
         ((∀ b ∈ s.data, p b = false) ∧ s.data = [])))
      ∧ (∀ n b, 0 < n → s.data.get? n = some b → p b = true →
          (∀ i, ∀ hi : i < s.data.length, i < n → p (s.data.get ⟨i, hi⟩) = false) →
          s.split_at_position1_complete p = .ok (s.take_split n))
      ∧ ((∀ b ∈ s.data, p b = false) → s.data ≠ [] →
          s.split_at_position1_complete p = .ok (s.take_split s.data.length))
      ∧ (s.data = [] → s.split_at_position1_complete p = .error (.Error s))
      ∧ ((∃ b, s.data.get? 0 = some b ∧ p b = true) →
          s.split_at_position1_complete p = .error (.Error s)) := by
  intro s p
  have hok : ∀ n b, 0 < n → s.data.get? n = some b → p b = true →
      (∀ i, ∀ hi : i < s.data.length, i < n → p (s.data.get ⟨i, hi⟩) = false) →
      s.split_at_position1_complete p = .ok (s.take_split n) := by
    intro n b hn hget hp hfirst
    have hpos : position p s.data = some n :=
      position_first p s.data n b hget hp (fun i hi c hc => by
        obtain ⟨hlt, hgc⟩ := List.get?_eq_some.mp hc
        rw [← hgc]
        exact hfirst i hlt hi)
    obtain ⟨k, rfl⟩ : ∃ k, n = k + 1 := ⟨n - 1, by omega⟩
    unfold Spanned.split_at_position1_complete
    rw [hpos]
    rfl
  have hnoneok : (∀ b ∈ s.data, p b = false) → s.data ≠ [] →
      s.split_at_position1_complete p = .ok (s.take_split s.data.length) := by
    intro hall hne
    have hpos : position p s.data = none := (position_none_iff p s.data).mpr hall
    have hlen : s.data.length ≠ 0 := by
      intro h0
      exact hne (List.length_eq_zero.mp h0)
    unfold Spanned.split_at_position1_complete
    rw [hpos]
    simp only [if_neg hlen]
    rfl
  have hempty : s.data = [] → s.split_at_position1_complete p = .error (.Error s) := by
    intro hd
    have hpos : position p s.data = none := by rw [hd]; rfl
    have hlen : s.data.length = 0 := by rw [hd]; rfl
    unfold Spanned.split_at_position1_complete
    rw [hpos]
    simp only [if_pos hlen]
  have hhead : (∃ b, s.data.get? 0 = some b ∧ p b = true) →
      s.split_at_position1_complete p = .error (.Error s) := by
    intro hex
    have hpos : position p s.data = some 0 := (position_zero_iff p s.data).mpr hex
    unfold Spanned.split_at_position1_complete
    rw [hpos]
  refine ⟨⟨?_, ?_⟩, hok, hnoneok, hempty, hhead⟩
  · rintro ⟨e, he⟩
    cases hmatch : position p s.data with
    | none =>
      have hall : ∀ b ∈ s.data, p b = false := (position_none_iff p s.data).mp hmatch
      by_cases hd : s.data = []
      · exact Or.inr ⟨hall, hd⟩
      · rw [hnoneok hall hd] at he
        cases he
    | some m =>
      cases m with
      | zero => exact Or.inl ((position_zero_iff p s.data).mp hmatch)
      | succ k =>
        unfold Spanned.split_at_position1_complete at he
        rw [hmatch] at he
        cases he
  · rintro (hex | ⟨_, hd⟩)
    · exact ⟨.Error s, hhead hex⟩
    · exact ⟨.Error s, hempty hd⟩

/-- Witness for C5 at a concrete input: in `"ab\n"` the first newline is at
index 2, so the split succeeds there. -/
theorem c5_split1_complete_cases_witness :
    (Spanned.new [97, 98, 10] true).split_at_position1_complete (fun b => b == 10) =
      .ok ((Spanned.new [97, 98, 10] true).take_split 2) :=
  (c5_split1_complete_cases (Spanned.new [97, 98, 10] true) (fun b => b == 10)).2.1
    2 10 (by decide) (by decide) (by decide) (by decide)

/-- C6: `split_at_position` returns `take_split n` for the first satisfying
relative index `n`, and an `Incomplete` error with minimum-length hint 1
when no element satisfies the predicate. -/
theorem c6_split_at_position :
    ∀ (s : Spanned) (p : Nat → Bool),
      (∀ n b, s.data.get? n = some b → p b = true →
        (∀ i, ∀ hi : i < s.data.length, i < n → p (s.data.get ⟨i, hi⟩) = false) →
        s.split_at_position p = .ok (s.take_split n))
      ∧ ((∀ b ∈ s.data, p b = false) →
        s.split_at_position p = .error (.Incomplete 1)) := by
  intro s p
  constructor
  · intro n b hget hp hfirst
    have hpos : position p s.data = some n :=
      position_first p s.data n b hget hp (fun i hi c hc => by
        obtain ⟨hlt, hgc⟩ := List.get?_eq_some.mp hc
        rw [← hgc]
        exact hfirst i hlt hi)
    unfold Spanned.split_at_position
    rw [hpos]
  · intro hall
    have hpos : position p s.data = none := (position_none_iff p s.data).mpr hall
    unfold Spanned.split_at_position
    rw [hpos]

/-- Witness for C6 at a concrete input: in `"a\n"` the first newline is at
index 1. -/
theorem c6_split_at_position_witness :
    (Spanned.new [97, 10] true).split_at_position (fun b => b == 10) =
      .ok ((Spanned.new [97, 10] true).take_split 1) :=
  (c6_split_at_position (Spanned.new [97, 10] true) (fun b => b == 10)).1
    1 10 (by decide) (by decide) (by decide)

/-- C7: `split_at_position1` behaves exactly as `split_at_position` for
every span and predicate; the one-or-more non-complete variant does not
reject a zero-length match. -/
theorem c7_split1_eq_split :
    ∀ (s : Spanned) (p : Nat → Bool),
      s.split_at_position1 p = s.split_at_position p :=
  fun _ _ => rfl

/-- Counterexample for C8: the derived structural span equality (the Rust
`#[derive(PartialEq, Eq)]` on `Spanned`) compares every field, so two spans
with equal data but different line/col/offset are not equal, contrary to the
claim that equality is computed entirely from the data field. -/
theorem c8_counterexample :
    (Spanned.mk [97] 1 1 0 true).data = (Spanned.mk [97] 2 7 3 true).data ∧
      ¬ (Spanned.mk [97] 1 1 0 true = Spanned.mk [97] 2 7 3 true) :=
  ⟨rfl, by decide⟩

/-- C8 amended: the `Compare` capability (`compare`/`compare_no_case`
against a pattern) is forwarded to the wrapped data unchanged, so two spans
with equal data yield identical comparison results regardless of their
line, col, byte_offset and utf8 mode; span equality itself, however, is the
derived field-wise equality and does depend on the position fields. -/
theorem c8_compare_from_data :
    ∀ (s1 s2 : Spanned) (t : List Nat), s1.data = s2.data →
      s1.compare t = s2.compare t ∧
      s1.compare_no_case t = s2.compare_no_case t := by
  intro s1 s2 t h
  rw [Spanned.compare, Spanned.compare, Spanned.compare_no_case,
    Spanned.compare_no_case, h]
  exact ⟨rfl, rfl⟩

/-- Witness for the amended C8: two spans with the same data but different
positions compare identically against a pattern. -/
theorem c8_compare_from_data_witness :
    (Spanned.mk [97, 98] 1 1 0 true).compare [97] =
      (Spanned.mk [97, 98] 5 9 2 false).compare [97] ∧
    (Spanned.mk [97, 98] 1 1 0 true).compare_no_case [97] =
      (Spanned.mk [97, 98] 5 9 2 false).compare_no_case [97] :=
  c8_compare_from_data (Spanned.mk [97, 98] 1 1 0 true)
    (Spanned.mk [97, 98] 5 9 2 false) [97] rfl

/-- C9: construction yields line 1, column 1, byte offset 0 for any data,
and both narrowing forms preserve the invariant that line and column stay
at least 1. -/
theorem c9_position_invariants :
    (∀ (d : List Nat) (u : Bool),
      (Spanned.new d u).line = 1 ∧ (Spanned.new d u).col = 1 ∧
      (Spanned.new d u).byte_offset = 0)
    ∧ (∀ (s : Spanned) (n : Nat), 1 ≤ s.line → 1 ≤ s.col →
      1 ≤ (s.sliceFrom n).line ∧ 1 ≤ (s.sliceFrom n).col ∧
      1 ≤ (s.sliceTo n).line ∧ 1 ≤ (s.sliceTo n).col) := by
  constructor
  · intro d u
    exact ⟨rfl, rfl, rfl⟩
  · intro s n hl hc
    refine ⟨?_, sliceFrom_col_ge_one s n hc, ?_, ?_⟩
    · rw [sliceFrom_line]
      omega
    · rw [Spanned.sliceTo, sliceCore_zero]
      exact hl
    · rw [Spanned.sliceTo, sliceCore_zero]
      exact hc

/-- Witness for C9 at a concrete input: narrowing past the newline of
`"\na"` keeps line and column at least 1. -/
theorem c9_position_invariants_witness :
    1 ≤ ((Spanned.new [10, 97] true).sliceFrom 1).line ∧
    1 ≤ ((Spanned.new [10, 97] true).sliceFrom 1).col ∧
    1 ≤ ((Spanned.new [10, 97] true).sliceTo 1).line ∧
    1 ≤ ((Spanned.new [10, 97] true).sliceTo 1).col :=
  c9_position_invariants.2 (Spanned.new [10, 97] true) 1 (by decide) (by decide)

/-- C10: the total number of bytes scanned for newlines across any sequence
of narrowings never exceeds the length of the starting data, because each
narrowing scans only the region it consumes: total scanning is linear in
the input size, not quadratic. -/
theorem c10_scan_cost_linear :
    ∀ (s : Spanned) (ns : List Nat), totalScanCost s ns ≤ s.data.length :=
  fun s ns => totalScanCost_le ns s
